import Mathlib

/-!
MQTT LED controller (`src/mqtt-test/mqtt.js`).

A shallow embedding of the script as an event-driven transition system.

The script registers five handlers on one MQTT client and arms timers with
`setInterval`.  The runtime serialises the callbacks, so a run of the program is
a sequence of events, each handled atomically:

* `connect`, `reconnect`, `error err`, `offline`, `close`: the client emits the
  event and the registered handler runs;
* `timer i`: the `i`-th timer armed with `setInterval` (counted from 0 in arming
  order) fires and its callback runs.

What the program can observe or change is collected in `State`:

* `isOn`: the store of `let isOn` bindings.  The binding is declared inside the
  `connect` handler, so every activation of the handler allocates a new one; the
  `toggleLED` closure created by that activation captures it.
* `timers`: the timers armed so far with `setInterval`, in arming order.  The
  script never calls `clearInterval`, so the model has no operation removing one.
* `pubs`: the log of `client.publish(topic, payload)` calls, oldest first.
* `console`: the log of `console.log` calls, oldest first.
-/

namespace MqttLed

/-- One call `client.publish(topic, payload)`. -/
structure Publish where
  topic : String
  payload : String
deriving DecidableEq

/-- The value handed to the `error` handler: an `Error` object, of which the
handler reads the `message` field only. -/
structure JsError where
  message : String
deriving DecidableEq

/-- The functions passed to `setInterval`.  The script passes only `toggleLED`
closures; a closure is identified by the index (in `State.isOn`) of the `isOn`
binding it captured. -/
inductive Callback where
  | toggleLED (env : Nat)
deriving DecidableEq

/-- A timer armed with `setInterval(callback, period)`, period in milliseconds. -/
structure Timer where
  callback : Callback
  period : Nat
deriving DecidableEq

/-- The program state, see the module comment. -/
structure State where
  isOn : List Bool
  timers : List Timer
  pubs : List Publish
  console : List String
deriving DecidableEq

/-- The events of a run. -/
inductive Event where
  | connect
  | reconnect
  | error (err : JsError)
  | offline
  | close
  | timer (i : Nat)
deriving DecidableEq

/-- The state after the top-level statements of the script: the client is
created, the start-up line is logged, the handlers are registered. -/
def init : State :=
  { isOn := [], timers := [], pubs := [],
    console := ["🚀 Starting MQTT LED Controller..."] }

/-- The expression `isOn ? "ON" : "OFF"`. -/
def stateLabel (isOn : Bool) : String :=
  if isOn then "ON" else "OFF"

/-- The closure `toggleLED` over the `isOn` binding number `env`:
`isOn = !isOn; state = isOn ? "ON" : "OFF"; console.log(...); client.publish("esp32/led", state)`.
The result is `none` when the binding does not exist. -/
def toggleLED (env : Nat) (s : State) : Option State :=
  match s.isOn[env]? with
  | none => none
  | some b =>
    let isOn := !b
    let state := stateLabel isOn
    some { isOn := s.isOn.set env isOn,
           timers := s.timers,
           pubs := s.pubs ++ [⟨"esp32/led", state⟩],
           console := s.console ++ ["📤 Publishing: esp32/led → " ++ state] }

/-- Running a timer callback. -/
def Callback.call : Callback → State → Option State
  | .toggleLED env, s => MqttLed.toggleLED env s

/-- The call `setInterval(callback, period)`: arms one more repeating timer. -/
def setInterval (callback : Callback) (period : Nat) (s : State) : State :=
  { s with timers := s.timers ++ [⟨callback, period⟩] }

/-- The call `console.log(line)`. -/
def consoleLog (line : String) (s : State) : State :=
  { s with console := s.console ++ [line] }

/-- The `connect` handler: logs, declares `let isOn = false`, builds the closure
`toggleLED` over it, calls it once and passes it to `setInterval(toggleLED, 3000)`. -/
def onConnect (s : State) : Option State :=
  let s1 := consoleLog "✅ Connected to MQTT Broker!" s
  let env := s1.isOn.length
  let s2 := { s1 with isOn := s1.isOn ++ [false] }
  match toggleLED env s2 with
  | none => none
  | some s3 => some (setInterval (.toggleLED env) 3000 s3)

/-- The `reconnect` handler. -/
def onReconnect (s : State) : State :=
  consoleLog "🔄 Reconnecting to MQTT broker..." s

/-- The `error` handler: `console.log("❌ MQTT Error:", err.message)`, one call
whose two arguments are printed separated by a blank. -/
def onError (err : JsError) (s : State) : State :=
  consoleLog ("❌ MQTT Error:" ++ " " ++ err.message) s

/-- The `offline` handler. -/
def onOffline (s : State) : State :=
  consoleLog "⚠️ MQTT Client is offline" s

/-- The `close` handler. -/
def onClose (s : State) : State :=
  consoleLog "🔌 Connection closed" s

/-- Handling one event.  A timer event is enabled only for an armed timer; the
result is `none` for an event that is not enabled. -/
def step (s : State) : Event → Option State
  | .connect => onConnect s
  | .reconnect => some (onReconnect s)
  | .error err => some (onError err s)
  | .offline => some (onOffline s)
  | .close => some (onClose s)
  | .timer i =>
    match s.timers[i]? with
    | none => none
    | some t => t.callback.call s

/-- Handling a sequence of events, left to right. -/
def run (s : State) : List Event → Option State
  | [] => some s
  | e :: es =>
    match step s e with
    | none => none
    | some s1 => run s1 es

/-- The events that only report the connection's status. -/
def Event.isStatus : Event → Bool
  | .reconnect => true
  | .error _ => true
  | .offline => true
  | .close => true
  | _ => false

/-- The timer the `k`-th activation of the `connect` handler arms. -/
def timerOf (k : Nat) : Timer :=
  ⟨.toggleLED k, 3000⟩

/-- One firing of every armed timer, in arming order. -/
def fireAll (s : State) : List Event :=
  (List.range s.timers.length).map Event.timer

/-- The number of `connect` events in a run. -/
def connects (es : List Event) : Nat :=
  es.count Event.connect

/-- The number of timer events in a run. -/
def firings : List Event → Nat
  | [] => 0
  | .timer _ :: es => firings es + 1
  | _ :: es => firings es

/-- The shape of the timer list in a state the program reaches: the `k`-th timer
is the one armed by the `k`-th activation of the `connect` handler, and there is
one per `isOn` binding. -/
def Inv (s : State) : Prop :=
  s.timers = (List.range s.isOn.length).map timerOf

/-- The state after `init` and one `connect` event. -/
def afterConnect : State :=
  { isOn := [true],
    timers := [⟨.toggleLED 0, 3000⟩],
    pubs := [⟨"esp32/led", "ON"⟩],
    console := ["🚀 Starting MQTT LED Controller...", "✅ Connected to MQTT Broker!",
      "📤 Publishing: esp32/led → ON"] }

/-- The state after `init` and the events `connect, close, offline, reconnect`:
the first connection was made and then dropped. -/
def afterDrop : State :=
  { isOn := [true],
    timers := [⟨.toggleLED 0, 3000⟩],
    pubs := [⟨"esp32/led", "ON"⟩],
    console := ["🚀 Starting MQTT LED Controller...", "✅ Connected to MQTT Broker!",
      "📤 Publishing: esp32/led → ON", "🔌 Connection closed", "⚠️ MQTT Client is offline",
      "🔄 Reconnecting to MQTT broker..."] }

/-- The state after `init` and the events `connect, close, offline, reconnect,
connect`: the connection was dropped and made again. -/
def afterReconnect : State :=
  { isOn := [true, true],
    timers := [⟨.toggleLED 0, 3000⟩, ⟨.toggleLED 1, 3000⟩],
    pubs := [⟨"esp32/led", "ON"⟩, ⟨"esp32/led", "ON"⟩],
    console := ["🚀 Starting MQTT LED Controller...", "✅ Connected to MQTT Broker!",
      "📤 Publishing: esp32/led → ON", "🔌 Connection closed", "⚠️ MQTT Client is offline",
      "🔄 Reconnecting to MQTT broker...", "✅ Connected to MQTT Broker!",
      "📤 Publishing: esp32/led → ON"] }

/-! Basic facts about the handlers. -/

theorem stateLabel_true : stateLabel true = "ON" := rfl

theorem stateLabel_false : stateLabel false = "OFF" := rfl

theorem toggleLED_some {env : Nat} {s : State} {b : Bool} (h : s.isOn[env]? = some b) :
    toggleLED env s = some
      { isOn := s.isOn.set env (!b),
        timers := s.timers,
        pubs := s.pubs ++ [⟨"esp32/led", stateLabel (!b)⟩],
        console := s.console ++ ["📤 Publishing: esp32/led → " ++ stateLabel (!b)] } := by
  simp [toggleLED, h]

theorem toggleLED_none {env : Nat} {s : State} (h : s.isOn.length ≤ env) :
    toggleLED env s = none := by
  have h0 : s.isOn[env]? = none := List.getElem?_eq_none h
  simp [toggleLED, h0]

theorem onConnect_some (s : State) :
    onConnect s = some
      { isOn := s.isOn ++ [true],
        timers := s.timers ++ [timerOf s.isOn.length],
        pubs := s.pubs ++ [⟨"esp32/led", "ON"⟩],
        console := s.console ++ ["✅ Connected to MQTT Broker!",
          "📤 Publishing: esp32/led → ON"] } := by
  have h : (s.isOn ++ [false])[s.isOn.length]? = some false := by simp
  simp [onConnect, consoleLog, toggleLED, h, setInterval, timerOf, stateLabel]

theorem step_status {s : State} {e : Event} (h : e.isStatus = true) :
    ∃ line, step s e = some (consoleLog line s) := by
  cases e with
  | connect => simp [Event.isStatus] at h
  | reconnect => exact ⟨_, rfl⟩
  | error err => exact ⟨_, rfl⟩
  | offline => exact ⟨_, rfl⟩
  | close => exact ⟨_, rfl⟩
  | timer i => simp [Event.isStatus] at h

theorem step_timer {s : State} (hs : Inv s) {i : Nat} {b : Bool} (h : s.isOn[i]? = some b) :
    step s (.timer i) = some
      { isOn := s.isOn.set i (!b),
        timers := s.timers,
        pubs := s.pubs ++ [⟨"esp32/led", stateLabel (!b)⟩],
        console := s.console ++ ["📤 Publishing: esp32/led → " ++ stateLabel (!b)] } := by
  have hi : i < s.isOn.length := by
    rcases Nat.lt_or_ge i s.isOn.length with h1 | h1
    · exact h1
    · rw [List.getElem?_eq_none h1] at h
      cases h
  have ht : s.timers[i]? = some (timerOf i) := by
    rw [hs]
    simp [hi]
  simp only [step, ht, Callback.call, timerOf]
  exact toggleLED_some h

theorem step_timer_none {s : State} (hs : Inv s) {i : Nat} (h : s.isOn.length ≤ i) :
    step s (.timer i) = none := by
  have ht : s.timers[i]? = none := by
    rw [hs]
    simp [h]
  simp [step, ht]

theorem Inv_init : Inv init := by
  simp [Inv, init]

theorem Inv_step {s s1 : State} {e : Event} (hs : Inv s) (h : step s e = some s1) :
    Inv s1 := by
  cases e with
  | connect =>
    simp only [step, onConnect_some, Option.some.injEq] at h
    subst h
    simp only [Inv, List.length_append, List.length_singleton, List.range_succ, List.map_append,
      List.map_cons, List.map_nil]
    rw [← hs]
  | timer i =>
    rcases Nat.lt_or_ge i s.isOn.length with hi | hi
    · have hb : s.isOn[i]? = some s.isOn[i] := List.getElem?_eq_getElem hi
      rw [step_timer hs hb] at h
      simp only [Option.some.injEq] at h
      subst h
      simpa [Inv] using hs
    · rw [step_timer_none hs hi] at h
      cases h
  | reconnect =>
    simp only [step, onReconnect, consoleLog, Option.some.injEq] at h
    subst h
    exact hs
  | error err =>
    simp only [step, onError, consoleLog, Option.some.injEq] at h
    subst h
    exact hs
  | offline =>
    simp only [step, onOffline, consoleLog, Option.some.injEq] at h
    subst h
    exact hs
  | close =>
    simp only [step, onClose, consoleLog, Option.some.injEq] at h
    subst h
    exact hs

theorem run_cons_some {s s1 : State} {e : Event} (h : step s e = some s1) (es : List Event) :
    run s (e :: es) = run s1 es := by
  simp [run, h]

theorem run_cons_inv {s s2 : State} {e : Event} {es : List Event}
    (h : run s (e :: es) = some s2) : ∃ s1, step s e = some s1 ∧ run s1 es = some s2 := by
  cases h1 : step s e with
  | none => simp [run, h1] at h
  | some s1 =>
    rw [run_cons_some h1] at h
    exact ⟨s1, rfl, h⟩

theorem run_append {s s1 : State} {es : List Event} (h : run s es = some s1)
    (es2 : List Event) : run s (es ++ es2) = run s1 es2 := by
  induction es generalizing s with
  | nil =>
    simp only [run, Option.some.injEq] at h
    subst h
    rfl
  | cons e es ih =>
    obtain ⟨s0, h0, h2⟩ := run_cons_inv h
    rw [List.cons_append, run_cons_some h0]
    exact ih h2

theorem Inv_run {s s1 : State} {es : List Event} (hs : Inv s) (h : run s es = some s1) :
    Inv s1 := by
  induction es generalizing s with
  | nil =>
    simp only [run, Option.some.injEq] at h
    subst h
    exact hs
  | cons e es ih =>
    obtain ⟨s0, h0, h2⟩ := run_cons_inv h
    exact ih (Inv_step hs h0) h2

/-- What one enabled event does in a state of the shape `Inv`. -/
theorem step_cases {s s1 : State} {e : Event} (hs : Inv s) (h : step s e = some s1) :
    (e = .connect ∧ s1 =
        { isOn := s.isOn ++ [true],
          timers := s.timers ++ [timerOf s.isOn.length],
          pubs := s.pubs ++ [⟨"esp32/led", "ON"⟩],
          console := s.console ++ ["✅ Connected to MQTT Broker!",
            "📤 Publishing: esp32/led → ON"] })
    ∨ (∃ i b, e = .timer i ∧ s.isOn[i]? = some b ∧ s1 =
        { isOn := s.isOn.set i (!b),
          timers := s.timers,
          pubs := s.pubs ++ [⟨"esp32/led", stateLabel (!b)⟩],
          console := s.console ++ ["📤 Publishing: esp32/led → " ++ stateLabel (!b)] })
    ∨ (e.isStatus = true ∧ ∃ line, s1 = consoleLog line s) := by
  cases e with
  | connect =>
    left
    simp only [step, onConnect_some, Option.some.injEq] at h
    exact ⟨rfl, h.symm⟩
  | timer i =>
    right
    left
    rcases Nat.lt_or_ge i s.isOn.length with hi | hi
    · have hb : s.isOn[i]? = some s.isOn[i] := List.getElem?_eq_getElem hi
      rw [step_timer hs hb] at h
      simp only [Option.some.injEq] at h
      exact ⟨i, s.isOn[i], rfl, hb, h.symm⟩
    · rw [step_timer_none hs hi] at h
      cases h
  | reconnect =>
    right
    right
    simp only [step, Option.some.injEq] at h
    exact ⟨rfl, _, h.symm⟩
  | error err =>
    right
    right
    simp only [step, Option.some.injEq] at h
    exact ⟨rfl, _, h.symm⟩
  | offline =>
    right
    right
    simp only [step, Option.some.injEq] at h
    exact ⟨rfl, _, h.symm⟩
  | close =>
    right
    right
    simp only [step, Option.some.injEq] at h
    exact ⟨rfl, _, h.symm⟩

theorem connects_cons_status {e : Event} (h : e.isStatus = true) (es : List Event) :
    connects (e :: es) = connects es := by
  cases e <;> simp_all [Event.isStatus, connects, List.count_cons]

theorem firings_cons_status {e : Event} (h : e.isStatus = true) (es : List Event) :
    firings (e :: es) = firings es := by
  cases e <;> simp_all [Event.isStatus, firings]

theorem connects_cons_connect (es : List Event) :
    connects (.connect :: es) = connects es + 1 := by
  simp [connects]

theorem connects_cons_timer (i : Nat) (es : List Event) :
    connects (.timer i :: es) = connects es := by
  simp [connects, List.count_cons]

theorem topic_step {s s1 : State} {e : Event} (hs : Inv s) (h : step s e = some s1)
    (ht : ∀ p ∈ s.pubs, p.topic = "esp32/led") : ∀ p ∈ s1.pubs, p.topic = "esp32/led" := by
  rcases step_cases hs h with ⟨_, h1⟩ | ⟨i, b, _, _, h1⟩ | ⟨_, line, h1⟩
  · subst h1
    intro p hp
    simp only [List.mem_append, List.mem_singleton] at hp
    rcases hp with hp | hp
    · exact ht p hp
    · rw [hp]
  · subst h1
    intro p hp
    simp only [List.mem_append, List.mem_singleton] at hp
    rcases hp with hp | hp
    · exact ht p hp
    · rw [hp]
  · subst h1
    exact ht

theorem topic_run {s s1 : State} {es : List Event} (hs : Inv s) (h : run s es = some s1)
    (ht : ∀ p ∈ s.pubs, p.topic = "esp32/led") : ∀ p ∈ s1.pubs, p.topic = "esp32/led" := by
  induction es generalizing s with
  | nil =>
    simp only [run, Option.some.injEq] at h
    subst h
    exact ht
  | cons e es ih =>
    obtain ⟨s0, h0, h2⟩ := run_cons_inv h
    exact ih (Inv_step hs h0) h2 (topic_step hs h0 ht)

/-- Counting along a run: timers and bindings grow by one per `connect` event,
the publish log by one per `connect` event and one per timer firing, and the
timers armed at the start stay at the front of the timer list. -/
theorem count_run {s s1 : State} {es : List Event} (hs : Inv s) (h : run s es = some s1) :
    s1.isOn.length = s.isOn.length + connects es
    ∧ s1.pubs.length = s.pubs.length + connects es + firings es
    ∧ ∃ t, s1.timers = s.timers ++ t ∧ t.length = connects es := by
  induction es generalizing s with
  | nil =>
    simp only [run, Option.some.injEq] at h
    subst h
    exact ⟨by simp [connects], by simp [connects, firings], [], by simp, by simp [connects]⟩
  | cons e es ih =>
    obtain ⟨s0, h0, h2⟩ := run_cons_inv h
    obtain ⟨ih1, ih2, t, ih3, ih4⟩ := ih (Inv_step hs h0) h2
    rcases step_cases hs h0 with ⟨he, h1⟩ | ⟨i, b, he, _, h1⟩ | ⟨he, line, h1⟩
    · subst he
      subst h1
      simp only [List.length_append, List.length_singleton] at ih1 ih2
      refine ⟨?_, ?_, timerOf s.isOn.length :: t, ?_, ?_⟩
      · rw [ih1, connects_cons_connect]
        omega
      · rw [ih2, connects_cons_connect]
        simp only [firings]
        omega
      · rw [ih3]
        simp
      · rw [connects_cons_connect]
        simp [ih4]
    · subst he
      subst h1
      simp only [List.length_append, List.length_singleton, List.length_set] at ih1 ih2
      refine ⟨?_, ?_, t, ih3, ?_⟩
      · rw [ih1, connects_cons_timer]
      · rw [ih2, connects_cons_timer]
        simp only [firings]
        omega
      · rw [connects_cons_timer]
        exact ih4
    · subst h1
      simp only [consoleLog] at ih1 ih2 ih3
      refine ⟨?_, ?_, t, ih3, ?_⟩
      · rw [ih1, connects_cons_status he]
      · rw [ih2, connects_cons_status he, firings_cons_status he]
      · rw [connects_cons_status he]
        exact ih4

theorem run_singleton (s : State) (e : Event) : run s [e] = step s e := by
  cases h : step s e <;> simp [run, h]

/-- The state after one `connect` event and `m` firings of the timer it armed. -/
theorem single_run (m : Nat) :
    ∃ s, run init (.connect :: List.replicate m (.timer 0)) = some s
      ∧ s.isOn = [decide (m % 2 = 0)]
      ∧ s.timers = [timerOf 0]
      ∧ s.pubs = (List.range (m + 1)).map
          (fun k => (⟨"esp32/led", stateLabel (decide (k % 2 = 0))⟩ : Publish)) := by
  induction m with
  | zero => exact ⟨afterConnect, by decide, by decide, by decide, by decide⟩
  | succ m ih =>
    obtain ⟨s, hrun, hon, htm, hpubs⟩ := ih
    have hs : Inv s := Inv_run Inv_init hrun
    have hb : s.isOn[0]? = some (decide (m % 2 = 0)) := by simp [hon]
    have hev : Event.connect :: List.replicate (m + 1) (Event.timer 0)
        = (Event.connect :: List.replicate m (Event.timer 0)) ++ [Event.timer 0] := by
      rw [List.replicate_succ', List.cons_append]
    refine ⟨{ isOn := s.isOn.set 0 (!decide (m % 2 = 0)),
              timers := s.timers,
              pubs := s.pubs ++ [⟨"esp32/led", stateLabel (!decide (m % 2 = 0))⟩],
              console := s.console
                ++ ["📤 Publishing: esp32/led → " ++ stateLabel (!decide (m % 2 = 0))] },
      ?_, ?_, ?_, ?_⟩
    · rw [hev, run_append hrun, run_singleton]
      exact step_timer hs hb
    · have h2 : (!decide (m % 2 = 0)) = decide ((m + 1) % 2 = 0) := by
        rcases Nat.mod_two_eq_zero_or_one m with h | h <;> simp [h, Nat.add_mod]
      simp [hon, h2]
    · exact htm
    · have h2 : (!decide (m % 2 = 0)) = decide ((m + 1) % 2 = 0) := by
        rcases Nat.mod_two_eq_zero_or_one m with h | h <;> simp [h, Nat.add_mod]
      show s.pubs ++ [_] = _
      rw [hpubs, h2, List.range_succ (m + 1), List.map_append]
      rfl

/-- A run of status events is enabled and changes the console log only. -/
theorem run_status (s : State) (mid : List Event) (hmid : ∀ e ∈ mid, e.isStatus = true) :
    ∃ s1, run s mid = some s1 ∧ s1.isOn = s.isOn ∧ s1.timers = s.timers
      ∧ s1.pubs = s.pubs := by
  induction mid generalizing s with
  | nil => exact ⟨s, rfl, rfl, rfl, rfl⟩
  | cons e es ih =>
    obtain ⟨line, h0⟩ := step_status (s := s) (hmid e (List.mem_cons_self e es))
    obtain ⟨s1, h1, h2, h3, h4⟩ :=
      ih (consoleLog line s) (fun x hx => hmid x (List.mem_cons_of_mem e hx))
    exact ⟨s1, by rw [run_cons_some h0, h1], h2, h3, h4⟩

theorem Inv_length {s : State} (hs : Inv s) : s.timers.length = s.isOn.length := by
  rw [hs]
  simp

/-- Firing armed timers, in any order and any number of times, is enabled, keeps
the timer list, and appends one publish per firing. -/
theorem fire_list {s : State} (hs : Inv s) (l : List Nat)
    (hl : ∀ i ∈ l, i < s.timers.length) :
    ∃ s1, run s (l.map Event.timer) = some s1 ∧ s1.timers = s.timers
      ∧ s1.pubs.length = s.pubs.length + l.length := by
  induction l generalizing s with
  | nil => exact ⟨s, rfl, rfl, rfl⟩
  | cons i l ih =>
    have hi : i < s.isOn.length := by
      rw [← Inv_length hs]
      exact hl i (List.mem_cons_self i l)
    have hb : s.isOn[i]? = some s.isOn[i] := List.getElem?_eq_getElem hi
    have h0 := step_timer hs hb
    obtain ⟨s1, h1, h2, h3⟩ := ih (Inv_step hs h0)
      (fun x hx => hl x (List.mem_cons_of_mem i hx))
    refine ⟨s1, ?_, h2, ?_⟩
    · rw [List.map_cons, run_cons_some h0, h1]
    · rw [h3]
      show (s.pubs ++ [_]).length + l.length = s.pubs.length + (l.length + 1)
      rw [List.length_append, List.length_singleton]
      omega

/-! The properties of the specification. -/

/-- C1: in a run of one `connect` event followed by `m` timer firings, the run is
enabled and the `n`-th publish (counted from 1, for every `n` from 1 to `m + 1`)
goes to `esp32/led` with payload `ON` when `n` is odd and `OFF` when `n` is
even; the payload sequence is `ON, OFF, ON, OFF, ...` starting with `ON`. -/
theorem payloads_alternate (m : Nat) :
    ∃ s, run init (.connect :: List.replicate m (.timer 0)) = some s
      ∧ s.pubs.length = m + 1
      ∧ ∀ n, 1 ≤ n → n ≤ m + 1 →
          s.pubs[n - 1]? = some ⟨"esp32/led", if n % 2 = 1 then "ON" else "OFF"⟩ := by
  obtain ⟨s, hrun, _, _, hpubs⟩ := single_run m
  refine ⟨s, hrun, by simp [hpubs], ?_⟩
  intro n h1 h2
  have h3 : n - 1 < m + 1 := by omega
  rw [hpubs]
  simp only [List.getElem?_map, List.getElem?_range h3, Option.map_some']
  rcases Nat.mod_two_eq_zero_or_one n with h | h
  · have h4 : (n - 1) % 2 = 1 := by omega
    simp [h, h4, stateLabel]
  · have h4 : (n - 1) % 2 = 0 := by omega
    simp [h, h4, stateLabel]

/-- Witness of C1: the third publish of the run `connect, timer, timer` is `ON`
and the second is `OFF`. -/
theorem payloads_alternate_witness :
    ∃ s, run init [.connect, .timer 0, .timer 0] = some s
      ∧ s.pubs[2]? = some ⟨"esp32/led", "ON"⟩
      ∧ s.pubs[1]? = some ⟨"esp32/led", "OFF"⟩ := by
  obtain ⟨s, hrun, _, h⟩ := payloads_alternate 2
  exact ⟨s, hrun, h 3 (by decide) (by decide), h 2 (by decide) (by decide)⟩

/-- C2: handling a `connect` event in any state (first connection or a later
one) is always enabled and, within the handler itself and without any timer
event, appends exactly one publish, with payload `ON`, to the publish log and
then arms exactly one more timer, with period 3000 ms; the callback of that
timer is `toggleLED` over the binding the handler has just declared, so a firing
of the new timer runs the toggle-and-publish action. -/
theorem connect_publishes_on_then_arms (s : State) :
    ∃ s1, step s .connect = some s1
      ∧ s1.pubs = s.pubs ++ [⟨"esp32/led", "ON"⟩]
      ∧ s1.timers = s.timers ++ [⟨.toggleLED s.isOn.length, 3000⟩]
      ∧ s1.isOn = s.isOn ++ [true]
      ∧ step s1 (.timer s.timers.length) = toggleLED s.isOn.length s1 := by
  refine ⟨_, onConnect_some s, rfl, rfl, rfl, ?_⟩
  simp [step, timerOf, Callback.call]

/-- C5: in every state reached from the initial state by any sequence of events
(`connect` events, timer firings, `reconnect`, `error`, `offline` and `close`
notifications), every entry of the publish log has the topic `esp32/led`. -/
theorem topic_fixed (es : List Event) (s : State) (h : run init es = some s) :
    ∀ p ∈ s.pubs, p.topic = "esp32/led" :=
  topic_run Inv_init h (by simp [init])

/-- Witness of C5 at the run consisting of one `connect` event. -/
theorem topic_fixed_witness :
    run init [.connect] = some afterConnect
      ∧ ∀ p ∈ afterConnect.pubs, p.topic = "esp32/led" :=
  ⟨by decide, topic_fixed [.connect] afterConnect (by decide)⟩

/-- C6: an invocation of `toggleLED` over an existing binding with value `b`
returns, sets that binding to `!b` and leaves every other binding alone, appends
exactly one entry to the publish log and leaves the timers alone; the payload of
the entry is `ON` when the new value `!b` is true and `OFF` when it is false. -/
theorem toggleLED_flips_and_publishes_once (env : Nat) (s : State) (b : Bool)
    (h : s.isOn[env]? = some b) :
    ∃ s1, toggleLED env s = some s1
      ∧ s1.isOn[env]? = some (!b)
      ∧ (∀ j, j ≠ env → s1.isOn[j]? = s.isOn[j]?)
      ∧ s1.isOn.length = s.isOn.length
      ∧ s1.timers = s.timers
      ∧ s1.pubs = s.pubs ++ [⟨"esp32/led", if (!b) = true then "ON" else "OFF"⟩] := by
  have hi : env < s.isOn.length := by
    rcases Nat.lt_or_ge env s.isOn.length with h1 | h1
    · exact h1
    · rw [List.getElem?_eq_none h1] at h
      cases h
  refine ⟨_, toggleLED_some h, ?_, ?_, ?_, rfl, rfl⟩
  · simp [hi]
  · intro j hj
    simp [List.getElem?_set_ne (Ne.symm hj)]
  · simp

/-- Witness of C6: `toggleLED` over the binding of the first connection, which
holds `true` after the `connect` event, publishes `OFF`. -/
theorem toggleLED_flips_and_publishes_once_witness :
    afterConnect.isOn[0]? = some true
      ∧ ∃ s1, toggleLED 0 afterConnect = some s1
        ∧ s1.isOn[0]? = some (!true)
        ∧ (∀ j, j ≠ 0 → s1.isOn[j]? = afterConnect.isOn[j]?)
        ∧ s1.isOn.length = afterConnect.isOn.length
        ∧ s1.timers = afterConnect.timers
        ∧ s1.pubs = afterConnect.pubs
            ++ [⟨"esp32/led", if (!true) = true then "ON" else "OFF"⟩] :=
  ⟨by decide, toggleLED_flips_and_publishes_once 0 afterConnect true (by decide)⟩

/-- C7: in every state, handling a `reconnect`, `error` (with any error value),
`offline` or `close` event is enabled, leaves every `isOn` binding, the list of
armed timers and the publish log unchanged, and appends exactly one line to the
console log. -/
theorem status_handlers_only_log (s : State) (e : Event) (h : e.isStatus = true) :
    ∃ s1 line, step s e = some s1
      ∧ s1.isOn = s.isOn
      ∧ s1.timers = s.timers
      ∧ s1.pubs = s.pubs
      ∧ s1.console = s.console ++ [line] := by
  obtain ⟨line, h1⟩ := step_status (s := s) h
  exact ⟨_, line, h1, rfl, rfl, rfl, rfl⟩

/-- Witness of C7 at an `error` event after the first connection. -/
theorem status_handlers_only_log_witness :
    Event.isStatus (.error ⟨"connect ECONNREFUSED"⟩) = true
      ∧ ∃ s1 line, step afterConnect (.error ⟨"connect ECONNREFUSED"⟩) = some s1
        ∧ s1.isOn = afterConnect.isOn
        ∧ s1.timers = afterConnect.timers
        ∧ s1.pubs = afterConnect.pubs
        ∧ s1.console = afterConnect.console ++ [line] :=
  ⟨rfl, status_handlers_only_log afterConnect (.error ⟨"connect ECONNREFUSED"⟩) rfl⟩

/-- C8: in a run of one `connect` event followed by `n` timer firings, the run is
enabled, one timer is armed throughout, the publish log after the `connect`
event alone has one entry, and after `n` firings it has exactly `n + 1`
entries, one more than after `n - 1` firings. -/
theorem one_publish_per_interval (n : Nat) :
    ∃ s, run init (.connect :: List.replicate n (.timer 0)) = some s
      ∧ s.timers.length = 1
      ∧ s.pubs.length = n + 1
      ∧ ∃ s1 p, run init (.connect :: List.replicate (n + 1) (.timer 0)) = some s1
          ∧ s1.pubs = s.pubs ++ [p] := by
  obtain ⟨s, hrun, _, htm, hpubs⟩ := single_run n
  obtain ⟨s1, hrun1, _, _, hpubs1⟩ := single_run (n + 1)
  refine ⟨s, hrun, by simp [htm], by simp [hpubs], s1,
    ⟨"esp32/led", stateLabel (decide ((n + 1) % 2 = 0))⟩, hrun1, ?_⟩
  rw [hpubs1, hpubs, List.range_succ (n + 1), List.map_append]
  rfl

/-- C3, as stated, fails: after `connect, close, offline, reconnect` the last
payload published is `ON`; the second `connect` event then publishes `ON` again,
not `OFF`, and the state holds two `isOn` bindings rather than one. -/
theorem reconnect_continues_counterexample :
    run init [.connect, .close, .offline, .reconnect] = some afterDrop
      ∧ step afterDrop .connect = some afterReconnect
      ∧ afterDrop.pubs.getLast? = some ⟨"esp32/led", "ON"⟩
      ∧ afterReconnect.pubs[afterDrop.pubs.length]? = some ⟨"esp32/led", "ON"⟩
      ∧ afterReconnect.pubs[afterDrop.pubs.length]? ≠ some ⟨"esp32/led", "OFF"⟩
      ∧ afterReconnect.isOn.length = 2 := by
  decide

/-- C3, amended: after any run, a further `connect` event is enabled and the
publish it appends has payload `ON`, whatever was published last; the handler
declares a new binding, which holds `true` afterwards, and the bindings of the
earlier connections keep their values. -/
theorem connect_restarts_at_on (es : List Event) (s : State) (h : run init es = some s) :
    ∃ s1, run init (es ++ [.connect]) = some s1
      ∧ s1.pubs = s.pubs ++ [⟨"esp32/led", "ON"⟩]
      ∧ s1.isOn = s.isOn ++ [true] := by
  have h1 : run init (es ++ [.connect]) = onConnect s := by
    rw [run_append h, run_singleton]
    rfl
  rw [h1, onConnect_some]
  exact ⟨_, rfl, rfl, rfl⟩

/-- Witness of the amended C3 at the run `connect, close, offline, reconnect`. -/
theorem connect_restarts_at_on_witness :
    run init [.connect, .close, .offline, .reconnect] = some afterDrop
      ∧ ∃ s1, run init ([.connect, .close, .offline, .reconnect] ++ [.connect]) = some s1
        ∧ s1.pubs = afterDrop.pubs ++ [⟨"esp32/led", "ON"⟩]
        ∧ s1.isOn = afterDrop.isOn ++ [true] :=
  ⟨by decide, connect_restarts_at_on [.connect, .close, .offline, .reconnect] afterDrop
    (by decide)⟩

/-- C4, as stated, fails: after `connect, close, offline, reconnect, connect`
two timers are armed, not one, and an interval in which each of them fires once
appends two publishes to the log, not one. -/
theorem reconnect_single_timer_counterexample :
    run init [.connect, .close, .offline, .reconnect, .connect] = some afterReconnect
      ∧ afterReconnect.timers.length = 2
      ∧ afterReconnect.timers.length ≠ 1
      ∧ fireAll afterReconnect = [.timer 0, .timer 1]
      ∧ (run afterReconnect (fireAll afterReconnect)).map (fun s => s.pubs.length)
          = some (afterReconnect.pubs.length + 2) := by
  decide

/-- C4, amended: for the event sequence `connect`, any status notifications
(`reconnect`, `error`, `offline`, `close`), `connect`, the run is enabled and
exactly two timers are armed afterwards, the one of the first and the one of the
second `connect` event; an interval in which each armed timer fires once is
enabled and appends exactly two publishes. -/
theorem reconnect_arms_second_timer (mid : List Event)
    (hmid : ∀ e ∈ mid, e.isStatus = true) :
    ∃ s, run init (.connect :: mid ++ [.connect]) = some s
      ∧ s.timers = [⟨.toggleLED 0, 3000⟩, ⟨.toggleLED 1, 3000⟩]
      ∧ ∃ s1, run s (fireAll s) = some s1
          ∧ s1.timers = s.timers
          ∧ s1.pubs.length = s.pubs.length + 2 := by
  have h0 : step init .connect = some afterConnect := by decide
  obtain ⟨s1, h1, hon, htm, _⟩ := run_status afterConnect mid hmid
  have h2 : run init (.connect :: mid) = some s1 := by
    rw [run_cons_some h0, h1]
  have h3 : run init (.connect :: mid ++ [.connect]) = onConnect s1 := by
    rw [run_append h2, run_singleton]
    rfl
  rw [onConnect_some] at h3
  have hinv := Inv_run Inv_init h3
  refine ⟨_, h3, ?_, ?_⟩
  · show s1.timers ++ [timerOf s1.isOn.length] = _
    rw [htm, hon]
    rfl
  · obtain ⟨s2, h4, h5, h6⟩ := fire_list hinv
      (List.range (s1.timers ++ [timerOf s1.isOn.length]).length)
      (fun i hi => List.mem_range.mp hi)
    refine ⟨s2, h4, h5, ?_⟩
    rw [h6]
    simp [htm, afterConnect]

/-- Witness of the amended C4 at `connect, close, offline, reconnect, connect`. -/
theorem reconnect_arms_second_timer_witness :
    (∀ e ∈ [Event.close, Event.offline, Event.reconnect], e.isStatus = true)
      ∧ ∃ s, run init (.connect :: [.close, .offline, .reconnect] ++ [.connect]) = some s
        ∧ s.timers = [⟨.toggleLED 0, 3000⟩, ⟨.toggleLED 1, 3000⟩]
        ∧ ∃ s1, run s (fireAll s) = some s1
            ∧ s1.timers = s.timers
            ∧ s1.pubs.length = s.pubs.length + 2 :=
  ⟨by decide, reconnect_arms_second_timer [.close, .offline, .reconnect] (by decide)⟩

/-- C9: let `s` be a state reached from the initial state and `s2` a state
reached from `s` by any further events.  The timers armed in `s` are all still
armed in `s2`, at the same places of the timer list and with the same callback
and period; and for each of them a firing is enabled in `s2`, flips the
timer's own `isOn` binding, appends one publish whose payload is the label of
the new value, and leaves the timer list as it is. -/
theorem timers_never_cancelled (es : List Event) (s : State) (h : run init es = some s)
    (es2 : List Event) (s2 : State) (h2 : run s es2 = some s2) :
    (∃ t, s2.timers = s.timers ++ t)
      ∧ ∀ i, i < s.timers.length →
          s2.timers[i]? = s.timers[i]?
          ∧ ∃ b s3, s2.isOn[i]? = some b
              ∧ step s2 (.timer i) = some s3
              ∧ s3.isOn[i]? = some (!b)
              ∧ s3.pubs = s2.pubs ++ [⟨"esp32/led", stateLabel (!b)⟩]
              ∧ s3.timers = s2.timers := by
  have hs : Inv s := Inv_run Inv_init h
  have hs2 : Inv s2 := Inv_run hs h2
  obtain ⟨_, _, t, ht, _⟩ := count_run hs h2
  refine ⟨⟨t, ht⟩, ?_⟩
  intro i hi
  have hi2 : i < s2.isOn.length := by
    rw [← Inv_length hs2, ht, List.length_append]
    omega
  have hb : s2.isOn[i]? = some s2.isOn[i] := List.getElem?_eq_getElem hi2
  refine ⟨?_, s2.isOn[i], _, hb, step_timer hs2 hb, ?_, rfl, rfl⟩
  · rw [ht, List.getElem?_append_left hi]
  · simp [hi2]

/-- Witness of C9: the timer armed by the first `connect` event is still armed,
and its firing enabled, after `close, offline, reconnect`. -/
theorem timers_never_cancelled_witness :
    run init [.connect] = some afterConnect
      ∧ run afterConnect [.close, .offline, .reconnect] = some afterDrop
      ∧ (∃ t, afterDrop.timers = afterConnect.timers ++ t)
      ∧ ∀ i, i < afterConnect.timers.length →
          afterDrop.timers[i]? = afterConnect.timers[i]?
          ∧ ∃ b s3, afterDrop.isOn[i]? = some b
              ∧ step afterDrop (.timer i) = some s3
              ∧ s3.isOn[i]? = some (!b)
              ∧ s3.pubs = afterDrop.pubs ++ [⟨"esp32/led", stateLabel (!b)⟩]
              ∧ s3.timers = afterDrop.timers :=
  ⟨by decide, by decide,
    timers_never_cancelled [.connect] afterConnect (by decide)
      [.close, .offline, .reconnect] afterDrop (by decide)⟩

/-- C10: let `s` be reached from the initial state by a run with `k` `connect`
events, interleaved with any other events.  Then `s` has exactly `k` armed
timers and `k` `isOn` bindings, and the `i`-th timer has period 3000 ms and the
callback `toggleLED` over the `i`-th binding, so no two timers share a binding.
A further `connect` event declares one more binding with value `false`, calls
`toggleLED` over it and arms one more timer over it, after which the new binding
holds `true`.  An event other than the firing of timer `i` leaves binding `i`
unchanged, while the firing of timer `i` flips it.  Firing every armed timer
once, in any order, is enabled and appends exactly `k` publishes. -/
theorem one_timer_per_connect (es : List Event) (s : State) (h : run init es = some s) :
    s.timers.length = connects es
      ∧ s.isOn.length = connects es
      ∧ (∀ i, i < connects es → s.timers[i]? = some ⟨.toggleLED i, 3000⟩)
      ∧ (∃ s0 s1, s0.isOn = s.isOn ++ [false] ∧ s0.timers = s.timers ∧ s0.pubs = s.pubs
          ∧ toggleLED (connects es) s0 = some s1
          ∧ step s .connect = some (setInterval (.toggleLED (connects es)) 3000 s1)
          ∧ s1.isOn = s.isOn ++ [true])
      ∧ (∀ e s1, step s e = some s1 → ∀ i, i < connects es → e ≠ .timer i →
          s1.isOn[i]? = s.isOn[i]?)
      ∧ (∀ i, i < connects es → ∃ b s1, s.isOn[i]? = some b
          ∧ step s (.timer i) = some s1 ∧ s1.isOn[i]? = some (!b))
      ∧ (∀ order : List Nat, order.Perm (List.range (connects es)) →
          ∃ s1, run s (order.map Event.timer) = some s1
            ∧ s1.pubs.length = s.pubs.length + connects es) := by
  have hs : Inv s := Inv_run Inv_init h
  obtain ⟨hon, _, t, ht, htl⟩ := count_run Inv_init h
  have hon1 : s.isOn.length = connects es := by
    rw [hon]
    simp [init]
  have htm1 : s.timers.length = connects es := by
    rw [Inv_length hs, hon1]
  refine ⟨htm1, hon1, ?_, ?_, ?_, ?_, ?_⟩
  · intro i hi
    rw [hs]
    simp [hon1, hi, timerOf]
  · have hf : (s.isOn ++ [false])[connects es]? = some false := by
      rw [← hon1]
      simp
    refine ⟨{ consoleLog "✅ Connected to MQTT Broker!" s with isOn := s.isOn ++ [false] }, _,
      rfl, rfl, rfl, toggleLED_some hf, ?_, ?_⟩
    · simp only [step, onConnect, consoleLog, hon1]
      rw [toggleLED_some hf]
    · show (s.isOn ++ [false]).set (connects es) (!false) = s.isOn ++ [true]
      rw [← hon1]
      simp
  · intro e s1 hstep i hi hne
    rw [← hon1] at hi
    rcases step_cases hs hstep with ⟨_, h1⟩ | ⟨j, b, he, _, h1⟩ | ⟨_, line, h1⟩
    · subst h1
      exact List.getElem?_append_left hi
    · subst h1
      have hji : j ≠ i := by
        intro hji
        apply hne
        rw [he, hji]
      exact List.getElem?_set_ne hji
    · subst h1
      rfl
  · intro i hi
    rw [← hon1] at hi
    have hb : s.isOn[i]? = some s.isOn[i] := List.getElem?_eq_getElem hi
    refine ⟨s.isOn[i], _, hb, step_timer hs hb, ?_⟩
    simp [hi]
  · intro order hperm
    have hmem : ∀ i ∈ order, i < s.timers.length := by
      intro i hi
      rw [htm1]
      exact List.mem_range.mp ((List.Perm.mem_iff hperm).mp hi)
    obtain ⟨s1, h1, _, h3⟩ := fire_list hs order hmem
    refine ⟨s1, h1, ?_⟩
    rw [h3, List.Perm.length_eq hperm, List.length_range]

/-- Witness of C10 at the run `connect, close, offline, reconnect, connect`, which
has two `connect` events. -/
theorem one_timer_per_connect_witness :
    run init [.connect, .close, .offline, .reconnect, .connect] = some afterReconnect
      ∧ connects [.connect, .close, .offline, .reconnect, .connect] = 2
      ∧ afterReconnect.timers.length = 2
      ∧ ∃ s1, run afterReconnect ([1, 0].map Event.timer) = some s1
          ∧ s1.pubs.length = afterReconnect.pubs.length + 2 := by
  have h := one_timer_per_connect [.connect, .close, .offline, .reconnect, .connect]
    afterReconnect (by decide)
  refine ⟨by decide, by decide, h.1, ?_⟩
  exact h.2.2.2.2.2.2 [1, 0] (by decide)

end MqttLed
